import Mathlib

/-!
Verification of the response-handling core of the `dev-ops-agent` repository
(`src/ai-analyzer.ts`, `src/ai-agent.ts`).

The TypeScript code is shallowly embedded:
* JavaScript runtime values produced by `JSON.parse` are modelled by `JVal`
  (JSON numbers are kept in exact syntactic form `JNum`; none of the embedded
  code performs arithmetic on parsed numbers, it only tests truthiness).
* `JSON.parse` is modelled by `jparse`, a fuel-based recursive-descent parser
  over the character list, following the JSON grammar accepted by JavaScript
  (strings with escapes, objects with last-occurrence-wins duplicate keys,
  no trailing commas, `null` / `true` / `false`, signed decimal numbers).
* Exceptions (`throw` / `try` / `catch`) are modelled by `Option`:
  `none` is a thrown exception, caught by `Option.getD` at the `catch` site.
* The external inference service is an oracle parameter; disk writes performed
  by `fs.writeFile` are recorded in an explicit `writes` trace.
-/

/-- A JSON number as written, kept syntactically exact: sign, integer part,
fraction digits, decimal exponent.  The embedded code never computes with
parsed numbers (it only checks truthiness), so no float rounding is needed. -/
structure JNum where
  neg : Bool
  ip : Nat
  frac : List Nat
  ex : Int
  deriving DecidableEq, Repr

/-- The JavaScript number `0`. -/
def jnumZero : JNum := ⟨false, 0, [], 0⟩

/-- The JavaScript number `1`. -/
def jnumOne : JNum := ⟨false, 1, [], 0⟩

/-- A JavaScript runtime value as produced by `JSON.parse`, plus `undefined`
for the `undefined` returned by absent-property access. -/
inductive JVal where
  | null
  | undefined
  | bool (b : Bool)
  | num (n : JNum)
  | str (s : String)
  | arr (elems : List JVal)
  | obj (fields : List (String × JVal))

/-- A `JNum` denotes zero iff its integer part and all fraction digits are 0
(the exponent and sign are then irrelevant). -/
def JNum.isZero (n : JNum) : Bool :=
  n.ip == 0 && n.frac.all (fun d => d == 0)

/-- JavaScript truthiness of a value (`undefined`, `null`, `false`, `0`,
`NaN`, `""` are falsy; everything else, including `[]` and `{}`, is truthy). -/
def truthy : JVal → Bool
  | .null => false
  | .undefined => false
  | .bool b => b
  | .num n => !n.isZero
  | .str s => !(s == "")
  | .arr _ => true
  | .obj _ => true

/-- JavaScript strict equality `v === s` against a string literal:
true only when `v` is a string with the same contents. -/
def jstreq (v : JVal) (s : String) : Bool :=
  match v with
  | .str t => t == s
  | _ => false

/-- Property lookup in a `JSON.parse` object: with duplicate keys the last
occurrence wins, absent keys give `undefined`. -/
def lookupLast (fields : List (String × JVal)) (name : String) : JVal :=
  fields.foldl (fun acc kv => if kv.1 == name then kv.2 else acc) .undefined

/-- JavaScript property access `v.name`: throws (`none`) on `null` and
`undefined`; on other primitives and arrays the properties read by the
embedded code (`severity`, `line`, ... — never `length` or an index) are
absent, giving `undefined`. -/
def getProp (v : JVal) (name : String) : Option JVal :=
  match v with
  | .null => none
  | .undefined => none
  | .obj fields => some (lookupLast fields name)
  | _ => some .undefined

/-- JSON whitespace accepted by `JSON.parse` between tokens. -/
def jsonWs (c : Char) : Bool :=
  c == ' ' || c == '\t' || c == '\n' || c == '\r'

/-- Drop leading JSON whitespace. -/
def skipWs (cs : List Char) : List Char :=
  cs.dropWhile jsonWs

/-- Numeric value of a hexadecimal digit. -/
def hexVal (c : Char) : Option Nat :=
  if c.isDigit then some (c.toNat - 48)
  else if 'a' ≤ c && c ≤ 'f' then some (c.toNat - 87)
  else if 'A' ≤ c && c ≤ 'F' then some (c.toNat - 70)
  else none

/-- Combine four hex digits into a code unit. -/
def hex4 (a b c d : Char) : Option Nat := do
  let x ← hexVal a
  let y ← hexVal b
  let z ← hexVal c
  let w ← hexVal d
  pure (((x * 16 + y) * 16 + z) * 16 + w)

/-- Body of a JSON string literal after the opening quote, decoded to UTF-16
code units (JavaScript string semantics).  Handles the JSON escapes; unescaped
control characters and bad escapes are a syntax error. -/
def strUnits (acc : List Nat) : List Char → Option (List Nat × List Char)
  | [] => none
  | '"' :: rest => some (acc.reverse, rest)
  | '\\' :: '"' :: rest => strUnits (34 :: acc) rest
  | '\\' :: '\\' :: rest => strUnits (92 :: acc) rest
  | '\\' :: '/' :: rest => strUnits (47 :: acc) rest
  | '\\' :: 'b' :: rest => strUnits (8 :: acc) rest
  | '\\' :: 'f' :: rest => strUnits (12 :: acc) rest
  | '\\' :: 'n' :: rest => strUnits (10 :: acc) rest
  | '\\' :: 'r' :: rest => strUnits (13 :: acc) rest
  | '\\' :: 't' :: rest => strUnits (9 :: acc) rest
  | '\\' :: 'u' :: a :: b :: c :: d :: rest =>
    match hex4 a b c d with
    | none => none
    | some n => strUnits (n :: acc) rest
  | '\\' :: _ => none
  | c :: rest => if c.toNat < 32 then none else strUnits (c.toNat :: acc) rest

/-- UTF-16 code units to characters: a valid surrogate pair becomes one
scalar value, as in a JavaScript string; a lone surrogate has no Lean
counterpart and degrades to the `Char.ofNat` fallback. -/
def unitsToChars : List Nat → List Char
  | [] => []
  | [u] => [Char.ofNat u]
  | u :: v :: rest =>
    if 0xD800 ≤ u && u ≤ 0xDBFF && 0xDC00 ≤ v && v ≤ 0xDFFF then
      Char.ofNat (0x10000 + (u - 0xD800) * 0x400 + (v - 0xDC00)) :: unitsToChars rest
    else Char.ofNat u :: unitsToChars (v :: rest)

/-- A JSON string literal body as a Lean string. -/
def parseStrBody (cs : List Char) : Option (String × List Char) :=
  (strUnits [] cs).map (fun p => (String.mk (unitsToChars p.1), p.2))

/-- Digit run: value and remaining input; fails on an empty run. -/
def parseDigits (cs : List Char) : Option (List Nat × List Char) :=
  let run := cs.takeWhile Char.isDigit
  if run.isEmpty then none
  else some (run.map (fun c => c.toNat - 48), cs.dropWhile Char.isDigit)

/-- Digits to a natural number. -/
def digitsToNat (ds : List Nat) : Nat :=
  ds.foldl (fun n d => n * 10 + d) 0

/-- A JSON number literal (optional minus, integer part without leading
zeros, optional fraction, optional exponent), kept syntactically. -/
def parseNum (cs : List Char) : Option (JNum × List Char) := do
  let (neg, cs1) := match cs with
    | '-' :: rest => (true, rest)
    | _ => (false, cs)
  let (ipDigits, cs2) ← match cs1 with
    | '0' :: rest => some ([0], rest)
    | _ => parseDigits cs1
  let (fracDigits, cs3) ← match cs2 with
    | '.' :: rest => (parseDigits rest).map (fun p => (p.1, p.2))
    | _ => some ([], cs2)
  let (exVal, cs4) ← match cs3 with
    | 'e' :: rest | 'E' :: rest =>
      match rest with
      | '-' :: rest2 => (parseDigits rest2).map (fun p => (-(digitsToNat p.1 : Int), p.2))
      | '+' :: rest2 => (parseDigits rest2).map (fun p => ((digitsToNat p.1 : Int), p.2))
      | _ => (parseDigits rest).map (fun p => ((digitsToNat p.1 : Int), p.2))
    | _ => some ((0 : Int), cs3)
  pure (⟨neg, digitsToNat ipDigits, fracDigits, exVal⟩, cs4)

mutual

/-- Recursive-descent JSON value parser (fuel-based; fuel `2·|input| + 8`
always suffices since every recursive call follows a consumed character). -/
def jparseVal : Nat → List Char → Option (JVal × List Char)
  | 0, _ => none
  | fuel + 1, cs =>
    match skipWs cs with
    | 'n' :: 'u' :: 'l' :: 'l' :: rest => some (.null, rest)
    | 't' :: 'r' :: 'u' :: 'e' :: rest => some (.bool true, rest)
    | 'f' :: 'a' :: 'l' :: 's' :: 'e' :: rest => some (.bool false, rest)
    | '"' :: rest => (parseStrBody rest).map (fun p => (.str p.1, p.2))
    | '[' :: rest =>
      (match skipWs rest with
       | ']' :: rest2 => some (.arr [], rest2)
       | cs1 => (jparseItems fuel cs1).map (fun p => (.arr p.1, p.2)))
    | '\x7b' :: rest =>
      (match skipWs rest with
       | '\x7d' :: rest2 => some (.obj [], rest2)
       | cs1 => (jparseMembers fuel cs1).map (fun p => (.obj p.1, p.2)))
    | cs1 => (parseNum cs1).map (fun p => (.num p.1, p.2))

/-- One-or-more array elements up to the closing `]` (no trailing comma). -/
def jparseItems : Nat → List Char → Option (List JVal × List Char)
  | 0, _ => none
  | fuel + 1, cs => do
    let (v, r1) ← jparseVal fuel cs
    match skipWs r1 with
    | ',' :: r2 => (jparseItems fuel r2).map (fun p => (v :: p.1, p.2))
    | ']' :: r2 => some ([v], r2)
    | _ => none

/-- One-or-more object members up to the closing `\x7d` (no trailing comma). -/
def jparseMembers : Nat → List Char → Option (List (String × JVal) × List Char)
  | 0, _ => none
  | fuel + 1, cs =>
    match skipWs cs with
    | '"' :: r0 => do
      let (k, r1) ← parseStrBody r0
      match skipWs r1 with
      | ':' :: r2 => do
        let (v, r3) ← jparseVal fuel r2
        match skipWs r3 with
        | ',' :: r4 => (jparseMembers fuel r4).map (fun p => ((k, v) :: p.1, p.2))
        | '}' :: r4 => some ([(k, v)], r4)
        | _ => none
      | _ => none
    | _ => none

end

/-- `JSON.parse` on a character list: one value, surrounding whitespace
allowed, nothing else. -/
def jparse (cs : List Char) : Option JVal := do
  let (v, rest) ← jparseVal (2 * cs.length + 8) cs
  match skipWs rest with
  | [] => some v
  | _ => none

example : jparse "\x7b\"a\": [1, true], \"a\": null\x7d".data =
    some (.obj [("a", .arr [.num jnumOne, .bool true]), ("a", .null)]) := by rfl

example : jparse "\x7b\"issues\": [\x7b\"line\": 2\x7d]".data = none := by rfl

/-- Suffix starting at the first character satisfying `p`, if any. -/
def dropUntil (p : Char → Bool) : List Char → Option (List Char)
  | [] => none
  | c :: rest => if p c then some (c :: rest) else dropUntil p rest

/-- The span matched by the greedy `response.match(/\x7b[\s\S]*\x7d/)` in
`parseAnalysisResponse` / `parseFixResponse`: from the first opening brace
that precedes the last closing brace, through that last closing brace. -/
def extractSpan (s : String) : Option (List Char) := do
  let t ← dropUntil (fun c => c == '}') s.data.reverse
  dropUntil (fun c => c == '{') t.reverse

/-- The character class `\s` of a JavaScript regular expression. -/
def jsWs (c : Char) : Bool :=
  c == ' ' || c == '\t' || c == '\n' || c == '\r' ||
  c.toNat == 0xB || c.toNat == 0xC || c.toNat == 0xA0 || c.toNat == 0x1680 ||
  (0x2000 ≤ c.toNat && c.toNat ≤ 0x200A) ||
  c.toNat == 0x2028 || c.toNat == 0x2029 || c.toNat == 0x202F ||
  c.toNat == 0x205F || c.toNat == 0x3000 || c.toNat == 0xFEFF

/-- `jsonText.replace(/,\s*$/, '')`: remove a trailing comma (and the
whitespace after it); leave the text unchanged when the last
non-whitespace character is not a comma. -/
def stripTrailingComma (cs : List Char) : List Char :=
  match cs.reverse.dropWhile jsWs with
  | ',' :: r => r.reverse
  | _ => cs

/-- The balance repair of `parseAnalysisResponse` (ai-analyzer.ts 297-311):
count open and close braces and brackets over the whole span (string
contents included), strip a trailing dangling comma only when closing
brackets are missing, then append the missing `]`s and after them the
missing `}`s. -/
def repairSpan (cs : List Char) : List Char :=
  let openBraces := cs.count '{'
  let closeBraces := cs.count '}'
  let openBrackets := cs.count '['
  let closeBrackets := cs.count ']'
  let t1 := if closeBrackets < openBrackets then
      stripTrailingComma cs ++ List.replicate (openBrackets - closeBrackets) ']'
    else cs
  if closeBraces < openBraces then t1 ++ List.replicate (openBraces - closeBraces) '}'
  else t1

/-- A finding as built by `parseAnalysisResponse` (ai-analyzer.ts 316-325).
`type` and `file` are set by the mapping itself; the other fields are copied
from the service reply and so are arbitrary runtime values. -/
structure RawIssue where
  type : String
  severity : JVal
  category : JVal
  message : JVal
  file : String
  line : JVal
  suggestedFix : JVal
  autoFixable : JVal

/-- The issue mapping callback (ai-analyzer.ts 316-325): `type` is `error`
iff `severity === 'critical' || severity === 'high'`, `file` is the
`filePath` argument, falsy `line` defaults to the number 1, falsy
`autoFixable` defaults to `false`. -/
def coerceIssue (filePath : String) (issue : JVal) : Option RawIssue := do
  let sev ← getProp issue "severity"
  let cat ← getProp issue "category"
  let msg ← getProp issue "message"
  let lineV ← getProp issue "line"
  let sfix ← getProp issue "suggestedFix"
  let afix ← getProp issue "autoFixable"
  pure {
    type := if jstreq sev "critical" || jstreq sev "high" then "error" else "warning"
    severity := sev
    category := cat
    message := msg
    file := filePath
    line := if truthy lineV then lineV else .num jnumOne
    suggestedFix := sfix
    autoFixable := if truthy afix then afix else .bool false }

/-- `(parsed.issues || [])` followed by `.map`: a falsy `issues` field acts
as the empty list; calling `.map` on a truthy non-array throws. -/
def toIssueArray (w : JVal) : Option (List JVal) :=
  if truthy w then
    match w with
    | .arr xs => some xs
    | _ => none
  else some []

/-- The `.map` over the issue entries, left to right; a throwing callback
aborts the whole mapping (reaching the outer `catch`). -/
def coerceIssues (filePath : String) : List JVal → Option (List RawIssue)
  | [] => some []
  | x :: xs => do
    let i ← coerceIssue filePath x
    let rest ← coerceIssues filePath xs
    pure (i :: rest)

/-- The record returned by `parseAnalysisResponse` (interface
`AIAnalysisResult`).  The `catch` branch builds it without a `hasMore`
field, modelled as `undefined`. -/
structure AIAnalysisResultR where
  issues : List RawIssue
  summary : JVal
  suggestions : JVal
  architecturalInsights : JVal
  hasMore : JVal

/-- The success branch of `parseAnalysisResponse` after `JSON.parse`
succeeded (ai-analyzer.ts 316-333): map the issues, default `summary`,
`suggestions`, `architecturalInsights` and `hasMore` when falsy. -/
def coerceChunk (filePath : String) (parsed : JVal) : Option AIAnalysisResultR := do
  let issuesF ← getProp parsed "issues"
  let raws ← toIssueArray issuesF
  let issues ← coerceIssues filePath raws
  let summaryF ← getProp parsed "summary"
  let suggestionsF ← getProp parsed "suggestions"
  let insightsF ← getProp parsed "architecturalInsights"
  let hasMoreF ← getProp parsed "hasMore"
  pure {
    issues
    summary := if truthy summaryF then summaryF else .str "AI analysis completed"
    suggestions := if truthy suggestionsF then suggestionsF else .arr []
    architecturalInsights := if truthy insightsF then insightsF else .arr []
    hasMore := if truthy hasMoreF then hasMoreF else .bool false }

/-- Strict parse of the span; on failure, one retry on the repaired span
(the inner `try`/`catch` of ai-analyzer.ts 291-311 followed by the
`JSON.parse` at line 313). -/
def strictOrRepaired (t : List Char) : Option JVal :=
  match jparse t with
  | some v => some v
  | none => jparse (repairSpan t)

/-- The `try` block of `parseAnalysisResponse`; `none` is a thrown
exception reaching the `catch`. -/
def parseAnalysisResponseE (response filePath : String) : Option AIAnalysisResultR := do
  let span ← extractSpan response
  let parsed ← strictOrRepaired span
  coerceChunk filePath parsed

/-- The `catch` result of `parseAnalysisResponse` (ai-analyzer.ts 336-341). -/
def analysisFailResult : AIAnalysisResultR :=
  ⟨[], .str "Failed to parse AI response", .arr [], .arr [], .undefined⟩

/-- `parseAnalysisResponse` (ai-analyzer.ts 280-343). -/
def parseAnalysisResponse (response filePath : String) : AIAnalysisResultR :=
  (parseAnalysisResponseE response filePath).getD analysisFailResult

/-- The record returned by `parseFixResponse` (interface `AIFixResult`). -/
structure AIFixResultR where
  originalCode : String
  fixedCode : JVal
  explanation : JVal
  confidence : JVal

/-- The `try` block of `parseFixResponse` (ai-analyzer.ts 346-359): span
extraction and one strict parse — no balance repair — then defaulting of
falsy `fixedCode`, `explanation` and `confidence`. -/
def parseFixResponseE (response originalCode : String) : Option AIFixResultR := do
  let span ← extractSpan response
  let parsed ← jparse span
  let fc ← getProp parsed "fixedCode"
  let ex ← getProp parsed "explanation"
  let cf ← getProp parsed "confidence"
  pure {
    originalCode
    fixedCode := if truthy fc then fc else .str originalCode
    explanation := if truthy ex then ex else .str "No explanation provided"
    confidence := if truthy cf then cf else .num jnumZero }

/-- The `catch` result of `parseFixResponse` (ai-analyzer.ts 362-367). -/
def fixFailResult (originalCode : String) : AIFixResultR :=
  ⟨originalCode, .str originalCode, .str "Failed to generate fix", .num jnumZero⟩

/-- `parseFixResponse` (ai-analyzer.ts 345-369). -/
def parseFixResponse (response originalCode : String) : AIFixResultR :=
  (parseFixResponseE response originalCode).getD (fixFailResult originalCode)

/-- Accumulator of the chunk loop in `analyzeCode` (ai-analyzer.ts 42-47),
plus an instrumentation counter of service requests issued. -/
structure AnalyzeAcc where
  allIssues : List RawIssue
  summary : JVal
  suggestions : List JVal
  architecturalInsights : List JVal
  requests : Nat

/-- `Array.prototype.concat` with a single argument: an array argument is
spread, any other value is appended as one element. -/
def concatJS (xs : List JVal) (v : JVal) : List JVal :=
  match v with
  | .arr ys => xs ++ ys
  | w => xs ++ [w]

/-- One iteration of the chunk loop (ai-analyzer.ts 51-77): issue the
request for the current chunk index, parse, accumulate, and compute the new
`hasMore` (`result.hasMore || false`, tested for truthiness by the loop).
The service is the oracle `respond`, mapping a chunk index to a reply text. -/
def analyzeStep (respond : Nat → String) (filePath : String) (chunkIdx : Nat)
    (acc : AnalyzeAcc) : AnalyzeAcc × Bool :=
  let result := parseAnalysisResponse (respond chunkIdx) filePath
  ({ allIssues := acc.allIssues ++ result.issues
     summary := if truthy result.summary then result.summary else acc.summary
     suggestions :=
       if truthy result.suggestions then concatJS acc.suggestions result.suggestions
       else acc.suggestions
     architecturalInsights :=
       if truthy result.architecturalInsights then
         concatJS acc.architecturalInsights result.architecturalInsights
       else acc.architecturalInsights
     requests := acc.requests + 1 },
   truthy result.hasMore)

/-- The loop `while (hasMore && currentChunk < 10)` of `analyzeCode`.
`gas` encodes the bound: it starts at 10 with `chunkIdx` 0 and both move in
lockstep, so `gas = 10 - chunkIdx` and `gas > 0` is `chunkIdx < 10`. -/
def analyzeGo (respond : Nat → String) (filePath : String) :
    Nat → Nat → Bool → AnalyzeAcc → AnalyzeAcc
  | 0, _, _, acc => acc
  | gas + 1, chunkIdx, hasMore, acc =>
    if hasMore then
      let (acc', hm') := analyzeStep respond filePath chunkIdx acc
      analyzeGo respond filePath gas (chunkIdx + 1) hm' acc'
    else acc

/-- The record returned by `analyzeCode`, with the request counter kept. -/
structure AnalyzeResult where
  issues : List RawIssue
  summary : JVal
  suggestions : List JVal
  architecturalInsights : List JVal
  hasMore : Bool
  requests : Nat

/-- `analyzeCode` (ai-analyzer.ts 37-87): run the chunk loop from chunk 0,
then return the accumulated result with `summary` defaulted when falsy and
`hasMore` forced to `false`. -/
def analyzeCode (respond : Nat → String) (filePath : String) : AnalyzeResult :=
  let acc := analyzeGo respond filePath 10 0 true ⟨[], .str "", [], [], 0⟩
  { issues := acc.allIssues
    summary := if truthy acc.summary then acc.summary else .str "AI analysis completed"
    suggestions := acc.suggestions
    architecturalInsights := acc.architecturalInsights
    hasMore := false
    requests := acc.requests }

/-- The value of a successful `generateFix` call as consumed by
`applyAIFixes` (interface `AIFixResult`, fields used at ai-agent.ts
114-125; the TypeScript `number` confidence is modelled as an integer). -/
structure GenFix where
  fixedCode : String
  explanation : String
  confidence : Int

/-- A record pushed onto `details` (ai-agent.ts 121-126). -/
structure FixDetail where
  file : String
  issue : JVal
  confidence : Int
  explanation : String

/-- State of the per-file fix loop of `applyAIFixes`: the working text
`content`, the two counters, the detail records, and an explicit trace of
the texts passed to `fs.writeFile` in the order written. -/
structure FixState where
  content : String
  fixed : Nat
  failed : Nat
  details : List FixDetail
  writes : List String

/-- Fix-loop state before any finding is processed. -/
def initFixState (content : String) : FixState := ⟨content, 0, 0, [], []⟩

/-- The eligibility filter of `applyAIFixes` (ai-agent.ts 100-102):
`issue.severity === 'high' || issue.severity === 'critical'`. -/
def fixableIssue (issue : RawIssue) : Bool :=
  jstreq issue.severity "high" || jstreq issue.severity "critical"

/-- Processing of one finding inside `applyAIFixes` (ai-agent.ts 108-135).
The service call `generateFix(content, issue)` is the oracle argument; a
`.error` result is the `catch` arm.  On confidence above 70 the file is
written (recorded in `writes`), the working text becomes the fixed code,
`fixed` is incremented and a detail record appended; otherwise only
`failed` is incremented. -/
def fixStep (file : String) (generateFix : RawIssue → String → Except Unit GenFix)
    (st : FixState) (issue : RawIssue) : FixState :=
  match generateFix issue st.content with
  | .ok fix =>
    if 70 < fix.confidence then
      { content := fix.fixedCode
        fixed := st.fixed + 1
        failed := st.failed
        details := st.details ++ [⟨file, issue.message, fix.confidence, fix.explanation⟩]
        writes := st.writes ++ [fix.fixedCode] }
    else { st with failed := st.failed + 1 }
  | .error _ => { st with failed := st.failed + 1 }

/-- The sequential loop over the fixable findings of one file. -/
def applyFixesGo (file : String) (generateFix : RawIssue → String → Except Unit GenFix)
    (issues : List RawIssue) (st : FixState) : FixState :=
  issues.foldl (fixStep file generateFix) st

/-- The per-file batch of `applyAIFixes` (ai-agent.ts 96-135): filter the
analysis findings down to high/critical severity and process them in order. -/
def applyAIFixesFile (file : String) (generateFix : RawIssue → String → Except Unit GenFix)
    (content : String) (issues : List RawIssue) : FixState :=
  applyFixesGo file generateFix (issues.filter fixableIssue) (initFixState content)

/-- The severity values of the `CodeIssue` interface. -/
inductive Severity where
  | critical
  | high
  | medium
  | low
  deriving DecidableEq, Repr

/-- A finding as typed by the `CodeIssue` interface (types.ts), carrying
the fields `mergeIssues` and the report use. -/
structure CodeIssue where
  type : String
  severity : Severity
  category : String
  message : String
  file : String
  line : Int
  suggestedFix : Option String
  autoFixable : Bool
  deriving DecidableEq, Repr

/-- The rank table `{ critical: 0, high: 1, medium: 2, low: 3 }` of
`mergeIssues` (ai-agent.ts 260). -/
def severityOrder : Severity → Nat
  | .critical => 0
  | .high => 1
  | .medium => 2
  | .low => 3

/-- The de-duplication key of `mergeIssues` (ai-agent.ts 249, 252): the
template string `file:line:message`. -/
def issueKey (i : CodeIssue) : String :=
  i.file ++ ":" ++ toString i.line ++ ":" ++ i.message

/-- The sort comparator of `mergeIssues` (ai-agent.ts 259-263) as a
boolean order: `a` may come before `b` iff the comparator is at most 0,
i.e. lower severity rank first, ties by ascending line number. -/
def mergeLe (a b : CodeIssue) : Bool :=
  decide (severityOrder a.severity < severityOrder b.severity) ||
    (decide (severityOrder a.severity = severityOrder b.severity) &&
      decide (a.line ≤ b.line))

/-- The de-duplication pass of `mergeIssues` (ai-agent.ts 248-257): start
from all of `staticIssues` with their keys seen, scan `aiIssues` in order,
keep an element only if its key is unseen, growing the seen set. -/
def mergePre (staticIssues aiIssues : List CodeIssue) : List CodeIssue × List String :=
  aiIssues.foldl
    (fun acc issue =>
      if issueKey issue ∈ acc.2 then acc
      else (acc.1 ++ [issue], acc.2 ++ [issueKey issue]))
    (staticIssues, staticIssues.map issueKey)

/-- `mergeIssues` (ai-agent.ts 247-264): de-duplicate, then the stable
`Array.prototype.sort` under the severity/line comparator. -/
def mergeIssues (staticIssues aiIssues : List CodeIssue) : List CodeIssue :=
  (mergePre staticIssues aiIssues).1.mergeSort mergeLe

/-- The de-duplication scan as described by the specification: an element
of `secondary` is kept iff its key is not in the seen set, which starts
from `primary` and grows with each kept element. -/
def keptSecondary (seen : List String) : List CodeIssue → List CodeIssue
  | [] => []
  | x :: xs =>
    if issueKey x ∈ seen then keptSecondary seen xs
    else x :: keptSecondary (seen ++ [issueKey x]) xs

theorem mergeLe_trans (a b c : CodeIssue) (hab : mergeLe a b = true)
    (hbc : mergeLe b c = true) : mergeLe a c = true := by
  simp only [mergeLe, Bool.or_eq_true, Bool.and_eq_true, decide_eq_true_eq] at *
  omega

theorem mergeLe_total (a b : CodeIssue) : (mergeLe a b || mergeLe b a) = true := by
  simp only [mergeLe, Bool.or_eq_true, Bool.and_eq_true, decide_eq_true_eq]
  omega

theorem mergePre_go (s : List CodeIssue) :
    ∀ (merged : List CodeIssue) (seen : List String),
    (s.foldl
      (fun acc issue =>
        if issueKey issue ∈ acc.2 then acc
        else (acc.1 ++ [issue], acc.2 ++ [issueKey issue]))
      (merged, seen)).1 = merged ++ keptSecondary seen s := by
  induction s with
  | nil => intro merged seen; simp [keptSecondary]
  | cons x xs ih =>
    intro merged seen
    by_cases h : issueKey x ∈ seen
    · simp [keptSecondary, h, ih]
    · simp [keptSecondary, h, ih]

theorem mergePre_fst (p s : List CodeIssue) :
    (mergePre p s).1 = p ++ keptSecondary (p.map issueKey) s := by
  simpa [mergePre] using mergePre_go s p (p.map issueKey)

theorem keptSecondary_eq_nil (s : List CodeIssue) :
    ∀ (seen : List String), (∀ x ∈ s, issueKey x ∈ seen) →
    keptSecondary seen s = [] := by
  induction s with
  | nil => intro seen _; rfl
  | cons x xs ih =>
    intro seen h
    have hx : issueKey x ∈ seen := h x (List.mem_cons_self x xs)
    simp [keptSecondary, hx, ih seen (fun y hy => h y (List.mem_cons_of_mem x hy))]

theorem mergeSort_filter_class (l : List CodeIssue) (cls : CodeIssue → Bool)
    (hcls : ∀ a b, cls a = true → cls b = true → mergeLe a b = true) :
    (l.mergeSort mergeLe).filter cls = l.filter cls := by
  have hsub : (l.filter cls).Sublist l := List.filter_sublist l
  have hpw : (l.filter cls).Pairwise (fun a b => mergeLe a b = true) :=
    List.pairwise_of_forall_mem_list
      (fun a ha b hb => hcls a b (List.of_mem_filter ha) (List.of_mem_filter hb))
  have h1 : (l.filter cls).Sublist (l.mergeSort mergeLe) :=
    List.sublist_mergeSort mergeLe_trans mergeLe_total hpw hsub
  have h2 : (l.filter cls).filter cls = l.filter cls := by
    apply List.filter_eq_self.mpr
    intro a ha
    exact List.of_mem_filter ha
  have h3 : (l.filter cls).Sublist ((l.mergeSort mergeLe).filter cls) := by
    have := h1.filter cls
    rwa [h2] at this
  have hlen : ((l.mergeSort mergeLe).filter cls).length = (l.filter cls).length := by
    have hperm := List.mergeSort_perm l mergeLe
    rw [← List.countP_eq_length_filter, ← List.countP_eq_length_filter]
    exact hperm.countP_eq cls
  exact (h3.eq_of_length hlen.symm).symm

/-- C8: `mergeIssues primary secondary` keeps all of `primary`, keeps an
element of `secondary` exactly when its de-duplication key was not already
seen (seen set seeded from `primary` and grown while scanning `secondary`
in order), and returns that combined list stably sorted by severity rank
(critical < high < medium < low) with ties broken by ascending line number:
the output is a permutation of the combined list, is pairwise ordered by
the comparator, and every equal (severity rank, line) class keeps its
original relative order. -/
theorem mergeIssues_keeps_primary_dedups_secondary_and_sorts
    (p s : List CodeIssue) :
    (mergePre p s).1 = p ++ keptSecondary (p.map issueKey) s
    ∧ (mergeIssues p s).Perm (p ++ keptSecondary (p.map issueKey) s)
    ∧ (mergeIssues p s).Pairwise (fun a b => mergeLe a b = true)
    ∧ ∀ r v,
        (mergeIssues p s).filter
          (fun x => severityOrder x.severity == r && x.line == v)
        = (p ++ keptSecondary (p.map issueKey) s).filter
          (fun x => severityOrder x.severity == r && x.line == v) := by
  refine ⟨mergePre_fst p s, ?_, ?_, ?_⟩
  · rw [← mergePre_fst p s]
    exact List.mergeSort_perm (mergePre p s).1 mergeLe
  · exact List.sorted_mergeSort mergeLe_trans mergeLe_total (mergePre p s).1
  · intro r v
    rw [← mergePre_fst p s]
    apply mergeSort_filter_class
    intro a b ha hb
    simp only [Bool.and_eq_true, beq_iff_eq] at ha hb
    simp [mergeLe, ha.1, ha.2, hb.1, hb.2]

/-- A low-severity finding on line 5, as in the merge scenario of the
specification. -/
def issueLow : CodeIssue := ⟨"warning", .low, "Quality", "M1", "a.js", 5, none, false⟩

/-- A critical finding on line 1. -/
def issueCrit : CodeIssue := ⟨"error", .critical, "Security", "M2", "a.js", 1, none, false⟩

/-- C2 counterexample: for `A = [issueLow, issueCrit]` (not sorted by
severity), `merge(A, A)` is the sorted `[issueCrit, issueLow]`, which is
not equal to `A` element for element. -/
theorem mergeIssues_self_not_identity :
    mergeIssues [issueLow, issueCrit] [issueLow, issueCrit] = [issueCrit, issueLow]
    ∧ [issueCrit, issueLow] ≠ [issueLow, issueCrit] := by
  constructor
  · simp [mergeIssues, mergePre, issueKey, issueLow, issueCrit,
      List.mergeSort, List.merge, mergeLe, severityOrder]
  · decide

/-- C2 as amended: `merge(A, A)` drops the entire second copy of `A` and
returns the stable severity/line sort of `A`; it is a permutation of `A`,
and equals `A` exactly on lists already sorted by the comparator. -/
theorem mergeIssues_self_eq_sort (A : List CodeIssue) :
    mergeIssues A A = A.mergeSort mergeLe
    ∧ (mergeIssues A A).Perm A
    ∧ (A.Pairwise (fun a b => mergeLe a b = true) → mergeIssues A A = A) := by
  have hkept : keptSecondary (A.map issueKey) A = [] :=
    keptSecondary_eq_nil A (A.map issueKey)
      (fun x hx => List.mem_map_of_mem issueKey hx)
  have hpre : (mergePre A A).1 = A := by
    rw [mergePre_fst, hkept, List.append_nil]
  have h1 : mergeIssues A A = A.mergeSort mergeLe := by
    rw [mergeIssues, hpre]
  refine ⟨h1, ?_, ?_⟩
  · rw [h1]; exact List.mergeSort_perm A mergeLe
  · intro hsorted
    rw [h1, List.mergeSort_of_sorted hsorted]

/-- C2 witness: on a list already sorted by severity rank and line,
merging with itself gives the list back unchanged. -/
theorem mergeIssues_self_eq_sort_witness :
    mergeIssues [issueCrit, issueLow] [issueCrit, issueLow] = [issueCrit, issueLow] :=
  (mergeIssues_self_eq_sort [issueCrit, issueLow]).2.2 (by decide)

/-- C4 counterexample: a primary list that itself contains two findings
with the same key passes both through — the output of `mergeIssues` is not
free of duplicate `(file, line, message)` keys. -/
theorem mergeIssues_duplicate_key_in_primary :
    mergeIssues [issueLow, issueLow] [] = [issueLow, issueLow]
    ∧ ¬ (([issueLow, issueLow] : List CodeIssue).Pairwise
          (fun a b => issueKey a ≠ issueKey b)) := by
  constructor
  · simp [mergeIssues, mergePre, keptSecondary, List.mergeSort, List.merge,
      mergeLe, severityOrder]
  · intro h
    exact (List.pairwise_cons.mp h).1 issueLow (List.mem_cons_self _ _) rfl

theorem keptSecondary_keys (s : List CodeIssue) :
    ∀ (seen : List String),
    ((keptSecondary seen s).map issueKey).Nodup
    ∧ ∀ k ∈ (keptSecondary seen s).map issueKey, k ∉ seen := by
  induction s with
  | nil => intro seen; simp [keptSecondary]
  | cons x xs ih =>
    intro seen
    by_cases h : issueKey x ∈ seen
    · simpa [keptSecondary, h] using ih seen
    · obtain ⟨ihnd, ihout⟩ := ih (seen ++ [issueKey x])
      have hnotin : ∀ k ∈ (keptSecondary (seen ++ [issueKey x]) xs).map issueKey,
          k ∉ seen ∧ k ≠ issueKey x := by
        intro k hk
        have := ihout k hk
        simp only [List.mem_append, List.mem_singleton] at this
        exact ⟨fun hs => this (Or.inl hs), fun he => this (Or.inr he)⟩
      have hkept : keptSecondary seen (x :: xs)
          = x :: keptSecondary (seen ++ [issueKey x]) xs := by
        simp [keptSecondary, h]
      rw [hkept]
      refine ⟨?_, ?_⟩
      · rw [List.map_cons, List.nodup_cons]
        exact ⟨fun hk => (hnotin _ hk).2 rfl, ihnd⟩
      · intro k hk
        rw [List.map_cons, List.mem_cons] at hk
        rcases hk with hk | hk
        · rw [hk]; exact h
        · exact (hnotin k hk).1

/-- C4 as amended: whenever the primary list itself has pairwise-distinct
`(file, line, message)` keys, the merged output contains no two findings
sharing a key; duplicate keys inside the secondary list, or shared between
the lists, are always removed — only duplicates already inside the primary
list survive. -/
theorem mergeIssues_nodup_keys (p s : List CodeIssue)
    (hp : (p.map issueKey).Nodup) :
    ((mergeIssues p s).map issueKey).Nodup := by
  have hperm : ((mergeIssues p s).map issueKey).Perm
      (((mergePre p s).1).map issueKey) :=
    (List.mergeSort_perm (mergePre p s).1 mergeLe).map issueKey
  rw [hperm.nodup_iff, mergePre_fst, List.map_append, List.nodup_append]
  obtain ⟨hknd, hkout⟩ := keptSecondary_keys s (p.map issueKey)
  exact ⟨hp, hknd, fun k hkp hkk => hkout k hkk hkp⟩

/-- C4 witness: a concrete primary list with distinct keys merged with a
secondary list yields duplicate-free keys. -/
theorem mergeIssues_nodup_keys_witness :
    (([issueLow] : List CodeIssue).map issueKey).Nodup
    ∧ ((mergeIssues [issueLow] [issueCrit]).map issueKey).Nodup :=
  ⟨by decide, mergeIssues_nodup_keys [issueLow] [issueCrit] (by decide)⟩

/-- A high-severity parser-shaped finding, eligible for the fix engine. -/
def issueHighRaw : RawIssue :=
  ⟨"error", .str "high", .str "Security", .str "bad call", "f.ts",
   .num jnumOne, .undefined, .bool false⟩

/-- An oracle whose every proposal has confidence 90. -/
def genConf90 : RawIssue → String → Except Unit GenFix :=
  fun _ _ => .ok ⟨"PATCHED", "why", 90⟩

/-- C1 counterexample: with two eligible findings and accepted proposals,
after processing only the first finding — the batch not yet complete — a
disk write has already happened: the write trace of the one-finding prefix
is `["PATCHED"]`, not empty, so the engine does not keep the patch state
purely in memory until the batch completes. -/
theorem applyAIFixes_writes_mid_batch :
    (applyFixesGo "f.ts" genConf90
      (([issueHighRaw, issueHighRaw].filter fixableIssue).take 1)
      (initFixState "ORIG")).writes = ["PATCHED"]
    ∧ ([issueHighRaw, issueHighRaw].filter fixableIssue).length = 2 := by
  constructor <;> rfl

theorem applyFixesGo_inv (file : String)
    (gen : RawIssue → String → Except Unit GenFix) (content : String)
    (issues : List RawIssue) :
    ∀ (st : FixState),
    st.writes.length = st.fixed → st.content = st.writes.getLastD content →
    st.details.length = st.fixed →
    ((applyFixesGo file gen issues st).writes.length
        = (applyFixesGo file gen issues st).fixed
     ∧ (applyFixesGo file gen issues st).content
        = (applyFixesGo file gen issues st).writes.getLastD content
     ∧ (applyFixesGo file gen issues st).details.length
        = (applyFixesGo file gen issues st).fixed) := by
  induction issues with
  | nil => intro st h1 h2 h3; exact ⟨h1, h2, h3⟩
  | cons issue rest ih =>
    intro st h1 h2 h3
    have hstep : applyFixesGo file gen (issue :: rest) st
        = applyFixesGo file gen rest (fixStep file gen st issue) := rfl
    rw [hstep]
    rcases hgen : gen issue st.content with u | fix
    · have hst : fixStep file gen st issue = { st with failed := st.failed + 1 } := by
        simp [fixStep, hgen]
      rw [hst]
      exact ih _ h1 h2 h3
    · by_cases hc : 70 < fix.confidence
      · have hst : fixStep file gen st issue =
            ⟨fix.fixedCode, st.fixed + 1, st.failed,
             st.details ++ [⟨file, issue.message, fix.confidence, fix.explanation⟩],
             st.writes ++ [fix.fixedCode]⟩ := by
          simp [fixStep, hgen, hc]
        rw [hst]
        apply ih
        · simp [h1]
        · simp [List.getLastD_concat]
        · simp [h3]
      · have hst : fixStep file gen st issue = { st with failed := st.failed + 1 } := by
          simp [fixStep, hgen, hc]
        rw [hst]
        exact ih _ h1 h2 h3

/-- C1 as amended: the fix engine writes the file once per accepted fix —
the write trace has exactly one entry per accepted proposal (and per detail
record), and the final working text always equals the last write (or the
untouched original when nothing was accepted), so the on-disk file tracks
every accepted fix during the batch instead of staying untouched until the
end; the returned outcome carries counters and details, not the text. -/
theorem applyAIFixes_write_per_accepted_fix (file : String)
    (gen : RawIssue → String → Except Unit GenFix) (content : String)
    (issues : List RawIssue) :
    (applyAIFixesFile file gen content issues).writes.length
        = (applyAIFixesFile file gen content issues).fixed
    ∧ (applyAIFixesFile file gen content issues).content
        = (applyAIFixesFile file gen content issues).writes.getLastD content
    ∧ (applyAIFixesFile file gen content issues).details.length
        = (applyAIFixesFile file gen content issues).fixed :=
  applyFixesGo_inv file gen content (issues.filter fixableIssue)
    (initFixState content) rfl rfl rfl

/-- C7: processing one finding never aborts the batch — the loop on
`issue :: rest` always continues with `rest` from the updated state — and
the update is: on a proposal with confidence above 70, the working text
becomes the proposed code, `fixed` is incremented, a detail record is
appended (and the file written); on confidence at most 70 only `failed` is
incremented and nothing else changes; on a failed request (the `catch`
arm) likewise only `failed` is incremented and the loop moves on. -/
theorem applyAIFixes_step (file : String)
    (gen : RawIssue → String → Except Unit GenFix) (st : FixState)
    (issue : RawIssue) (rest : List RawIssue) :
    applyFixesGo file gen (issue :: rest) st
      = applyFixesGo file gen rest (fixStep file gen st issue)
    ∧ (∀ fix, gen issue st.content = .ok fix → 70 < fix.confidence →
        fixStep file gen st issue =
          ⟨fix.fixedCode, st.fixed + 1, st.failed,
           st.details ++ [⟨file, issue.message, fix.confidence, fix.explanation⟩],
           st.writes ++ [fix.fixedCode]⟩)
    ∧ (∀ fix, gen issue st.content = .ok fix → fix.confidence ≤ 70 →
        fixStep file gen st issue = { st with failed := st.failed + 1 })
    ∧ (gen issue st.content = .error () →
        fixStep file gen st issue = { st with failed := st.failed + 1 }) := by
  refine ⟨rfl, ?_, ?_, ?_⟩
  · intro fix hgen hc
    simp [fixStep, hgen, hc]
  · intro fix hgen hc
    simp [fixStep, hgen, Int.not_lt.mpr hc]
  · intro hgen
    simp [fixStep, hgen]

/-- An oracle whose single proposal has confidence 65, below the gate. -/
def genConf65 : RawIssue → String → Except Unit GenFix :=
  fun _ _ => .ok ⟨"CHANGED", "expl", 65⟩

/-- C7 witness, the scenario from the specification: one finding whose
proposal has confidence 65 leaves the text unchanged and reports zero
fixed, one failed. -/
theorem applyAIFixes_step_witness :
    (applyAIFixesFile "f.ts" genConf65 "ORIG" [issueHighRaw]).content = "ORIG"
    ∧ (applyAIFixesFile "f.ts" genConf65 "ORIG" [issueHighRaw]).fixed = 0
    ∧ (applyAIFixesFile "f.ts" genConf65 "ORIG" [issueHighRaw]).failed = 1 := by
  have h := (applyAIFixes_step "f.ts" genConf65 (initFixState "ORIG")
    issueHighRaw []).2.2.1 ⟨"CHANGED", "expl", 65⟩ rfl (by decide)
  have hrun : applyAIFixesFile "f.ts" genConf65 "ORIG" [issueHighRaw]
      = { initFixState "ORIG" with failed := 1 } := by
    show applyFixesGo "f.ts" genConf65 [issueHighRaw] (initFixState "ORIG")
      = { initFixState "ORIG" with failed := 1 }
    show fixStep "f.ts" genConf65 (initFixState "ORIG") issueHighRaw
      = { initFixState "ORIG" with failed := 1 }
    rw [h]
    rfl
  rw [hrun]
  exact ⟨rfl, rfl, rfl⟩

theorem analyzeGo_spec (respond : Nat → String) (filePath : String) :
    ∀ (gas chunkIdx : Nat) (hasMore : Bool) (acc : AnalyzeAcc),
    ∃ k, k ≤ gas
      ∧ (analyzeGo respond filePath gas chunkIdx hasMore acc).requests
          = acc.requests + k
      ∧ (analyzeGo respond filePath gas chunkIdx hasMore acc).allIssues
          = acc.allIssues
            ++ ((List.range' chunkIdx k).map
                 (fun i => (parseAnalysisResponse (respond i) filePath).issues)).flatten := by
  intro gas
  induction gas with
  | zero =>
    intro chunkIdx hasMore acc
    exact ⟨0, Nat.le_refl 0, by simp [analyzeGo], by simp [analyzeGo]⟩
  | succ g ih =>
    intro chunkIdx hasMore acc
    by_cases hm : hasMore
    · obtain ⟨k, hk, hreq, hiss⟩ :=
        ih (chunkIdx + 1) (analyzeStep respond filePath chunkIdx acc).2
          (analyzeStep respond filePath chunkIdx acc).1
      refine ⟨k + 1, Nat.succ_le_succ hk, ?_, ?_⟩
      · rw [analyzeGo, if_pos hm]
        rw [hreq]
        show (analyzeStep respond filePath chunkIdx acc).1.requests + k
          = acc.requests + (k + 1)
        simp [analyzeStep]
        omega
      · rw [analyzeGo, if_pos hm]
        rw [hiss]
        show (analyzeStep respond filePath chunkIdx acc).1.allIssues ++ _ = _
        rw [List.range'_succ]
        simp [analyzeStep]
    · exact ⟨0, Nat.zero_le _, by simp [analyzeGo, hm], by simp [analyzeGo, hm]⟩

/-- C5: for every responder — including one that always reports more
chunks and one whose replies never parse — `analyzeCode` performs at most
10 request/accumulate iterations, and what it returns is exactly the
accumulated concatenation of the per-chunk parsed findings (chunk indices
0, 1, ...), with the completeness flag forced true (`hasMore = false`),
never an error. -/
theorem analyzeCode_bounded_and_accumulates (respond : Nat → String)
    (filePath : String) :
    (analyzeCode respond filePath).requests ≤ 10
    ∧ (analyzeCode respond filePath).issues
        = ((List.range (analyzeCode respond filePath).requests).map
            (fun i => (parseAnalysisResponse (respond i) filePath).issues)).flatten
    ∧ (analyzeCode respond filePath).hasMore = false := by
  obtain ⟨k, hk, hreq, hiss⟩ :=
    analyzeGo_spec respond filePath 10 0 true ⟨[], .str "", [], [], 0⟩
  have hreq10 : (analyzeCode respond filePath).requests
      = (analyzeGo respond filePath 10 0 true ⟨[], .str "", [], [], 0⟩).requests := rfl
  have hiss10 : (analyzeCode respond filePath).issues
      = (analyzeGo respond filePath 10 0 true ⟨[], .str "", [], [], 0⟩).allIssues := rfl
  refine ⟨?_, ?_, rfl⟩
  · rw [hreq10, hreq]
    show 0 + k ≤ 10
    omega
  · rw [hiss10, hiss, hreq10, hreq]
    simp [List.range_eq_range']

theorem coerceIssue_file (filePath : String) (v : JVal) (j : RawIssue)
    (h : coerceIssue filePath v = some j) : j.file = filePath := by
  cases v <;> simp [coerceIssue, getProp] at h <;> rw [← h]

theorem coerceIssues_file (filePath : String) :
    ∀ (xs : List JVal) (ys : List RawIssue),
    coerceIssues filePath xs = some ys → ∀ i ∈ ys, i.file = filePath := by
  intro xs
  induction xs with
  | nil =>
    intro ys h i hi
    simp only [coerceIssues, Option.some.injEq] at h
    rw [← h] at hi
    simp at hi
  | cons x xt ih =>
    intro ys h i hi
    rw [coerceIssues] at h
    rcases h1 : coerceIssue filePath x with _ | j
    · rw [h1] at h; simp at h
    · rw [h1] at h
      rcases h2 : coerceIssues filePath xt with _ | rest
      · rw [h2] at h; simp at h
      · rw [h2] at h
        simp only [Option.bind_eq_bind, Option.some_bind, Option.pure_def,
          Option.some.injEq] at h
        rw [← h] at hi
        rcases List.mem_cons.mp hi with hj | hrest
        · rw [hj]
          exact coerceIssue_file filePath x j h1
        · exact ih rest h2 i hrest

theorem coerceChunk_file (f : String) (v : JVal) (res : AIAnalysisResultR)
    (h : coerceChunk f v = some res) : ∀ i ∈ res.issues, i.file = f := by
  intro i hi
  cases v with
  | null => simp [coerceChunk, getProp] at h
  | undefined => simp [coerceChunk, getProp] at h
  | obj fields =>
    rw [coerceChunk] at h
    simp only [getProp, Option.bind_eq_bind, Option.some_bind] at h
    rcases h2 : toIssueArray (lookupLast fields "issues") with _ | raws <;> rw [h2] at h
    · simp at h
    · simp only [Option.some_bind] at h
      rcases h3 : coerceIssues f raws with _ | issues <;> rw [h3] at h
      · simp at h
      · simp only [Option.some_bind, Option.pure_def, Option.some.injEq] at h
        have hissues : res.issues = issues := by rw [← h]
        exact coerceIssues_file f raws issues h3 i (hissues ▸ hi)
  | bool b =>
    simp [coerceChunk, getProp, toIssueArray, truthy, coerceIssues] at h
    rw [← h] at hi
    simp at hi
  | num n =>
    simp [coerceChunk, getProp, toIssueArray, truthy, coerceIssues] at h
    rw [← h] at hi
    simp at hi
  | str s =>
    simp [coerceChunk, getProp, toIssueArray, truthy, coerceIssues] at h
    rw [← h] at hi
    simp at hi
  | arr elems =>
    simp [coerceChunk, getProp, toIssueArray, truthy, coerceIssues] at h
    rw [← h] at hi
    simp at hi

theorem parseAnalysisResponse_file (r f : String) :
    ∀ i ∈ (parseAnalysisResponse r f).issues, i.file = f := by
  intro i hi
  rw [parseAnalysisResponse] at hi
  rcases hE : parseAnalysisResponseE r f with _ | res <;> rw [hE] at hi
  · simp [analysisFailResult] at hi
  · simp only [Option.getD_some] at hi
    rw [parseAnalysisResponseE] at hE
    rcases h1 : extractSpan r with _ | t <;> rw [h1] at hE
    · simp at hE
    · simp only [Option.bind_eq_bind, Option.some_bind] at hE
      rcases h2 : strictOrRepaired t with _ | v <;> rw [h2] at hE
      · simp at hE
      · simp only [Option.some_bind] at hE
        exact coerceChunk_file f v res hE i hi

theorem analyzeGo_file (respond : Nat → String) (fp : String) :
    ∀ (gas chunkIdx : Nat) (hasMore : Bool) (acc : AnalyzeAcc),
    (∀ i ∈ acc.allIssues, i.file = fp) →
    ∀ i ∈ (analyzeGo respond fp gas chunkIdx hasMore acc).allIssues, i.file = fp := by
  intro gas
  induction gas with
  | zero =>
    intro chunkIdx hasMore acc hacc
    simpa [analyzeGo] using hacc
  | succ g ih =>
    intro chunkIdx hasMore acc hacc
    by_cases hm : hasMore
    · rw [analyzeGo, if_pos hm]
      apply ih
      intro i hi
      have hi2 : i ∈ acc.allIssues ++ (parseAnalysisResponse (respond chunkIdx) fp).issues := hi
      rcases List.mem_append.mp hi2 with hl | hr
      · exact hacc i hl
      · exact parseAnalysisResponse_file (respond chunkIdx) fp i hr
    · rw [analyzeGo, if_neg hm]
      exact hacc

/-- C10: every finding accumulated by `analyzeCode` carries `file` equal to
the `filePath` argument of that invocation — the issue mapping overwrites
any file information in the service reply with `filePath`, so a finding can
never be attributed to another file. -/
theorem analyzeCode_file_attribution (respond : Nat → String) (fp : String)
    (i : RawIssue) (hi : i ∈ (analyzeCode respond fp).issues) : i.file = fp := by
  have hiss : (analyzeCode respond fp).issues
      = (analyzeGo respond fp 10 0 true ⟨[], .str "", [], [], 0⟩).allIssues := rfl
  rw [hiss] at hi
  exact analyzeGo_file respond fp 10 0 true _ (by simp) i hi

/-- A responder that returns one parseable finding and no continuation. -/
def respondOne : Nat → String :=
  fun _ => "\x7b\"issues\": [\x7b\"line\": 3, \"severity\": \"low\", \"message\": \"m\"\x7d], \"hasMore\": false\x7d"

/-- The finding `respondOne` yields after normalization for file `w.ts`. -/
def issueOne : RawIssue :=
  ⟨"warning", .str "low", .undefined, .str "m", "w.ts", .num ⟨false, 3, [], 0⟩, .undefined, .bool false⟩

/-- C10 witness: a concrete run whose single finding is attributed to the
analyzed file. -/
theorem analyzeCode_file_attribution_witness :
    issueOne ∈ (analyzeCode respondOne "w.ts").issues ∧ issueOne.file = "w.ts" := by
  have hiss : (analyzeCode respondOne "w.ts").issues = [issueOne] := by rfl
  have hmem : issueOne ∈ (analyzeCode respondOne "w.ts").issues := by
    rw [hiss]
    exact List.mem_singleton_self issueOne
  exact ⟨hmem, analyzeCode_file_attribution respondOne "w.ts" issueOne hmem⟩

/-- C6: the parsers never raise — they are total functions — and on
malformed input they fall back to the defined defaults: when no brace span
exists, or the span fails both the strict parse and the one repaired
retry, or the coercion of a parsed value throws, the analysis parser
returns the empty-issue failure record and the fix parser returns the
no-op zero-confidence proposal for the original code. -/
theorem parsers_default_on_malformed (response filePath originalCode : String) :
    (extractSpan response = none →
       parseAnalysisResponse response filePath = analysisFailResult
       ∧ parseFixResponse response originalCode = fixFailResult originalCode)
    ∧ (∀ t, extractSpan response = some t → jparse t = none →
        jparse (repairSpan t) = none →
        parseAnalysisResponse response filePath = analysisFailResult
        ∧ parseFixResponse response originalCode = fixFailResult originalCode)
    ∧ (∀ t v, extractSpan response = some t → strictOrRepaired t = some v →
        coerceChunk filePath v = none →
        parseAnalysisResponse response filePath = analysisFailResult) := by
  refine ⟨?_, ?_, ?_⟩
  · intro h
    exact ⟨by simp [parseAnalysisResponse, parseAnalysisResponseE, h],
           by simp [parseFixResponse, parseFixResponseE, h]⟩
  · intro t h1 h2 h3
    have hsor : strictOrRepaired t = none := by
      simp [strictOrRepaired, h2, h3]
    exact ⟨by simp [parseAnalysisResponse, parseAnalysisResponseE, h1, hsor],
           by simp [parseFixResponse, parseFixResponseE, h1, h2]⟩
  · intro t v h1 h2 h3
    simp [parseAnalysisResponse, parseAnalysisResponseE, h1, h2, h3]

/-- C6 witness: a pure-prose reply with no embedded structure makes both
parsers return their defaults. -/
theorem parsers_default_on_malformed_witness :
    extractSpan "prose only, nothing structured" = none
    ∧ parseAnalysisResponse "prose only, nothing structured" "a.ts" = analysisFailResult
    ∧ parseFixResponse "prose only, nothing structured" "orig" = fixFailResult "orig" := by
  have h := (parsers_default_on_malformed
    "prose only, nothing structured" "a.ts" "orig").1 rfl
  exact ⟨rfl, h.1, h.2⟩

theorem jstreq_iff (v : JVal) (s : String) : jstreq v s = true ↔ v = .str s := by
  cases v <;> simp [jstreq]

theorem typeBranch (sev : JVal) :
    ((if jstreq sev "critical" || jstreq sev "high" then "error" else "warning")
      = "error")
    ↔ (sev = .str "critical" ∨ sev = .str "high") := by
  by_cases hc : sev = .str "critical"
  · subst hc
    simp [jstreq]
  · by_cases hh : sev = .str "high"
    · subst hh
      simp [jstreq]
    · have h1 : jstreq sev "critical" = false := by
        cases hj : jstreq sev "critical"
        · rfl
        · exact absurd ((jstreq_iff sev "critical").mp hj) hc
      have h2 : jstreq sev "high" = false := by
        cases hj : jstreq sev "high"
        · rfl
        · exact absurd ((jstreq_iff sev "high").mp hj) hh
      simp [h1, h2, hc, hh]

theorem coerceIssue_type_line (filePath : String) (v : JVal) (i : RawIssue)
    (h : coerceIssue filePath v = some i) :
    i.type = (if jstreq i.severity "critical" || jstreq i.severity "high"
        then "error" else "warning")
    ∧ (getProp v "line" = some .undefined → i.line = .num jnumOne) := by
  cases v with
  | null => simp [coerceIssue, getProp] at h
  | undefined => simp [coerceIssue, getProp] at h
  | obj fields =>
    simp only [coerceIssue, getProp, Option.bind_eq_bind, Option.some_bind,
      Option.pure_def, Option.some.injEq] at h
    refine ⟨by rw [← h], ?_⟩
    intro hline
    simp only [getProp, Option.some.injEq] at hline
    rw [← h]
    simp [hline, truthy]
  | bool b =>
    simp only [coerceIssue, getProp, Option.bind_eq_bind, Option.some_bind,
      Option.pure_def, Option.some.injEq] at h
    exact ⟨by rw [← h], fun _ => by rw [← h]; simp [truthy]⟩
  | num n =>
    simp only [coerceIssue, getProp, Option.bind_eq_bind, Option.some_bind,
      Option.pure_def, Option.some.injEq] at h
    exact ⟨by rw [← h], fun _ => by rw [← h]; simp [truthy]⟩
  | str s =>
    simp only [coerceIssue, getProp, Option.bind_eq_bind, Option.some_bind,
      Option.pure_def, Option.some.injEq] at h
    exact ⟨by rw [← h], fun _ => by rw [← h]; simp [truthy]⟩
  | arr es =>
    simp only [coerceIssue, getProp, Option.bind_eq_bind, Option.some_bind,
      Option.pure_def, Option.some.injEq] at h
    exact ⟨by rw [← h], fun _ => by rw [← h]; simp [truthy]⟩

theorem coerceChunk_hasMore (f : String) (v : JVal) (res : AIAnalysisResultR)
    (h : coerceChunk f v = some res) (hhm : getProp v "hasMore" = some .undefined) :
    res.hasMore = .bool false := by
  cases v with
  | null => simp [coerceChunk, getProp] at h
  | undefined => simp [coerceChunk, getProp] at h
  | obj fields =>
    simp only [getProp, Option.some.injEq] at hhm
    rw [coerceChunk] at h
    simp only [getProp, Option.bind_eq_bind, Option.some_bind] at h
    rcases h2 : toIssueArray (lookupLast fields "issues") with _ | raws <;> rw [h2] at h
    · simp at h
    · simp only [Option.some_bind] at h
      rcases h3 : coerceIssues f raws with _ | issues <;> rw [h3] at h
      · simp at h
      · simp only [Option.some_bind, Option.pure_def, Option.some.injEq] at h
        rw [← h]
        simp [hhm, truthy]
  | bool b =>
    simp only [coerceChunk, getProp, toIssueArray, truthy, coerceIssues,
      Option.bind_eq_bind, Option.some_bind, Option.pure_def, Option.some.injEq,
      Bool.false_eq_true, if_false] at h
    rw [← h]
  | num n =>
    simp only [coerceChunk, getProp, toIssueArray, truthy, coerceIssues,
      Option.bind_eq_bind, Option.some_bind, Option.pure_def, Option.some.injEq,
      Bool.false_eq_true, if_false] at h
    rw [← h]
  | str s =>
    simp only [coerceChunk, getProp, toIssueArray, truthy, coerceIssues,
      Option.bind_eq_bind, Option.some_bind, Option.pure_def, Option.some.injEq,
      Bool.false_eq_true, if_false] at h
    rw [← h]
  | arr es =>
    simp only [coerceChunk, getProp, toIssueArray, truthy, coerceIssues,
      Option.bind_eq_bind, Option.some_bind, Option.pure_def, Option.some.injEq,
      Bool.false_eq_true, if_false] at h
    rw [← h]

theorem parseFixResponse_defaults (response originalCode : String)
    (t : List Char) (w : JVal)
    (h1 : extractSpan response = some t) (h2 : jparse t = some w) :
    (getProp w "confidence" = some .undefined →
      (parseFixResponse response originalCode).confidence = .num jnumZero)
    ∧ (getProp w "fixedCode" = some .undefined →
      (parseFixResponse response originalCode).fixedCode = .str originalCode) := by
  cases w with
  | null => constructor <;> intro hc <;> simp [getProp] at hc
  | undefined => constructor <;> intro hc <;> simp [getProp] at hc
  | obj fields =>
    constructor
    · intro hc
      simp only [getProp, Option.some.injEq] at hc
      simp [parseFixResponse, parseFixResponseE, h1, h2, getProp, hc, truthy]
    · intro hc
      simp only [getProp, Option.some.injEq] at hc
      simp [parseFixResponse, parseFixResponseE, h1, h2, getProp, hc, truthy]
  | bool b =>
    constructor <;> intro _ <;>
      simp [parseFixResponse, parseFixResponseE, h1, h2, getProp, truthy]
  | num n =>
    constructor <;> intro _ <;>
      simp [parseFixResponse, parseFixResponseE, h1, h2, getProp, truthy]
  | str s =>
    constructor <;> intro _ <;>
      simp [parseFixResponse, parseFixResponseE, h1, h2, getProp, truthy]
  | arr es =>
    constructor <;> intro _ <;>
      simp [parseFixResponse, parseFixResponseE, h1, h2, getProp, truthy]

/-- C9: on successfully parsed replies, normalization behaves as specified:
a coerced issue's `type` is `error` exactly when its copied `severity` is
the string `critical` or `high` (and `warning` in every other case), an
absent `line` defaults to the number 1, an absent `hasMore` flag defaults
to `false`, and in a fix reply an absent `confidence` defaults to the
number 0 while an absent `fixedCode` defaults to the original code. -/
theorem normalization_rules (filePath response originalCode : String) :
    (∀ v i, coerceIssue filePath v = some i →
      ((i.type = "error" ↔ (i.severity = .str "critical" ∨ i.severity = .str "high"))
       ∧ (i.type = "error" ∨ i.type = "warning")
       ∧ (getProp v "line" = some .undefined → i.line = .num jnumOne)))
    ∧ (∀ v res, coerceChunk filePath v = some res →
        getProp v "hasMore" = some .undefined → res.hasMore = .bool false)
    ∧ (∀ t w, extractSpan response = some t → jparse t = some w →
        getProp w "confidence" = some .undefined →
        (parseFixResponse response originalCode).confidence = .num jnumZero)
    ∧ (∀ t w, extractSpan response = some t → jparse t = some w →
        getProp w "fixedCode" = some .undefined →
        (parseFixResponse response originalCode).fixedCode = .str originalCode) := by
  refine ⟨?_, ?_, ?_, ?_⟩
  · intro v i h
    obtain ⟨ht, hl⟩ := coerceIssue_type_line filePath v i h
    refine ⟨?_, ?_, hl⟩
    · rw [ht]
      exact typeBranch i.severity
    · rw [ht]
      by_cases hb : (jstreq i.severity "critical" || jstreq i.severity "high") = true
      · rw [if_pos hb]; exact Or.inl rfl
      · rw [if_neg hb]; exact Or.inr rfl
  · intro v res h hhm
    exact coerceChunk_hasMore filePath v res h hhm
  · intro t w h1 h2 hc
    exact (parseFixResponse_defaults response originalCode t w h1 h2).1 hc
  · intro t w h1 h2 hc
    exact (parseFixResponse_defaults response originalCode t w h1 h2).2 hc

/-- A reply truncated inside a nested object: the span is unbalanced only
by missing closers (two `}` and one `]` short, no surplus). -/
def rBadNested : String := "\x7b\"issues\": [\x7b\"line\": 7, \"e\": \x7b\"x\": 1\x7d"

/-- A truncated fix reply whose span is one `}` short; appending the
deficit would recover the `fixedCode` field. -/
def rFixTrunc : String := "\x7b\"fixedCode\": \"FIXED\", \"meta\": \x7b\"a\": 1\x7d, \"more\": [1, 2"

/-- The brace span extracted from `rFixTrunc`. -/
def spanFixTrunc : List Char := "\x7b\"fixedCode\": \"FIXED\", \"meta\": \x7b\"a\": 1\x7d".data

/-- C3 counterexample, double: (a) `rBadNested` satisfies the claim's
hypothesis — its span fails the strict parse and its bracket counts show
only a deficit of closing tokens — yet appending `]` before `}}` closes the
array before the still-open inner object, the repaired span fails the
strict parse too, and the parser falls back to the empty default instead
of recovering the line-7 finding of the completed text; (b) the single-fix
parser applies no repair at all: on `rFixTrunc` it returns the no-op
default even though the same repair would have recovered
`fixedCode: "FIXED"`. -/
theorem repair_fails_on_nested_truncation_and_fix_shape :
    extractSpan rBadNested = some rBadNested.data
    ∧ jparse rBadNested.data = none
    ∧ rBadNested.data.count '}' < rBadNested.data.count '{'
    ∧ rBadNested.data.count ']' < rBadNested.data.count '['
    ∧ jparse (repairSpan rBadNested.data) = none
    ∧ parseAnalysisResponse rBadNested "a.ts" = analysisFailResult
    ∧ extractSpan rFixTrunc = some spanFixTrunc
    ∧ jparse spanFixTrunc = none
    ∧ spanFixTrunc.count '}' < spanFixTrunc.count '{'
    ∧ spanFixTrunc.count ']' = spanFixTrunc.count '['
    ∧ jparse (repairSpan spanFixTrunc)
        = some (.obj [("fixedCode", .str "FIXED"), ("meta", .obj [("a", .num jnumOne)])])
    ∧ parseFixResponse rFixTrunc "ORIG" = fixFailResult "ORIG" :=
  ⟨rfl, rfl, by decide, by decide, rfl, rfl, rfl, rfl, by decide, by decide, rfl, rfl⟩

/-- C3 as amended: the balance repair belongs to the analysis-chunk parser
only, and it succeeds exactly when the repaired span parses — whenever the
extracted span fails the strict parse but stripping the dangling separator
and appending the `]` then `}` deficits yields a strictly parseable text,
the analysis parser returns the normalization of that completed parse; the
single-fix parser performs no repair and falls back to its default on any
strict-parse failure of its span. -/
theorem repair_correct_when_balanced (response filePath originalCode : String)
    (t : List Char) (v : JVal) :
    (extractSpan response = some t → jparse t = none →
      jparse (repairSpan t) = some v →
      parseAnalysisResponseE response filePath = coerceChunk filePath v)
    ∧ (extractSpan response = some t → jparse t = none →
      parseFixResponse response originalCode = fixFailResult originalCode) := by
  constructor
  · intro h1 h2 h3
    simp [parseAnalysisResponseE, h1, strictOrRepaired, h2, h3]
  · intro h1 h2
    simp [parseFixResponse, parseFixResponseE, h1, h2]

/-- A reply truncated at the issues-array level, where the repair does
complete the text. -/
def rGoodTrunc : String :=
  "Sure: \x7b\"issues\": [\x7b\"line\": 4, \"severity\": \"high\", \"message\": \"m\"\x7d, \x7b\"li"

/-- The brace span extracted from `rGoodTrunc`. -/
def spanGood : List Char :=
  "\x7b\"issues\": [\x7b\"line\": 4, \"severity\": \"high\", \"message\": \"m\"\x7d".data

/-- The strict parse of the repaired span of `rGoodTrunc`. -/
def vGood : JVal :=
  .obj [("issues", .arr [.obj [("line", .num ⟨false, 4, [], 0⟩),
    ("severity", .str "high"), ("message", .str "m")]])]

/-- The finding recovered from `rGoodTrunc` for file `a.ts`. -/
def issueGood : RawIssue :=
  ⟨"error", .str "high", .undefined, .str "m", "a.ts", .num ⟨false, 4, [], 0⟩, .undefined,
   .bool false⟩

/-- C3 witness: on the array-level truncation `rGoodTrunc` the repair
recovers the completed finding, while the truncated fix reply falls back
to the default. -/
theorem repair_correct_when_balanced_witness :
    (parseAnalysisResponse rGoodTrunc "a.ts").issues = [issueGood]
    ∧ parseFixResponse rFixTrunc "ORIG" = fixFailResult "ORIG" := by
  have h := (repair_correct_when_balanced rGoodTrunc "a.ts" "ORIG" spanGood vGood).1
    rfl rfl rfl
  constructor
  · rw [parseAnalysisResponse, h]
    rfl
  · exact (repair_correct_when_balanced rFixTrunc "a.ts" "ORIG" spanFixTrunc vGood).2
      rfl rfl

/-- A raw issue entry carrying only a severity. -/
def vSevHigh : JVal := .obj [("severity", .str "high")]

/-- The normalization of `vSevHigh` for file `p.ts`. -/
def issueSevHigh : RawIssue :=
  ⟨"error", .str "high", .undefined, .undefined, "p.ts", .num jnumOne, .undefined, .bool false⟩

/-- The chunk coercion of an empty object. -/
def chunkEmpty : AIAnalysisResultR :=
  ⟨[], .str "AI analysis completed", .arr [], .arr [], .bool false⟩

/-- A fix reply that omits `fixedCode` and `confidence`. -/
def fixReplyBare : String := "\x7b\"explanation\": \"e\"\x7d"

/-- C9 witness: a high-severity entry without a line normalizes to an
error-kind finding on line 1; an empty chunk object gets `hasMore` false;
a fix reply without `confidence` and `fixedCode` yields the zero-confidence
no-op proposal. -/
theorem normalization_rules_witness :
    coerceIssue "p.ts" vSevHigh = some issueSevHigh
    ∧ issueSevHigh.type = "error"
    ∧ issueSevHigh.line = .num jnumOne
    ∧ coerceChunk "p.ts" (.obj []) = some chunkEmpty
    ∧ chunkEmpty.hasMore = .bool false
    ∧ (parseFixResponse fixReplyBare "orig").confidence = .num jnumZero
    ∧ (parseFixResponse fixReplyBare "orig").fixedCode = .str "orig" := by
  have h := normalization_rules "p.ts" fixReplyBare "orig"
  refine ⟨rfl, ?_, ?_, rfl, ?_, ?_, ?_⟩
  · exact ((h.1 vSevHigh issueSevHigh rfl).1).mpr (Or.inr rfl)
  · exact (h.1 vSevHigh issueSevHigh rfl).2.2 rfl
  · exact h.2.1 (.obj []) chunkEmpty rfl rfl
  · exact h.2.2.1 fixReplyBare.data (.obj [("explanation", .str "e")]) rfl rfl rfl
  · exact h.2.2.2 fixReplyBare.data (.obj [("explanation", .str "e")]) rfl rfl rfl
